import Mathlib

/-!
Shallow embedding of the VisionLQA core: the deterministic quality
normalizer (services/reportGenerator.ts: determineStrictQuality,
enforceScoreConsistency), the post-parse pipeline of
services/llmService.ts (callTranslationQaLLM), the per-item retry logic
(App.tsx processItem, llmService.ts retryWithBackoff) and the
bounded-concurrency batch scheduler of App.tsx (startBulkAnalysis,
handleCancelBulk), together with theorems settling the specification
claims about them.

Numeric score values (TS `number`) are modelled as `Int`; the claims
under study only compare scores with the integer caps 1, 2, 4, so the
choice of linear order is immaterial.
-/

/-- Quality level union from types.ts (`'Critical' | 'Poor' | 'Average' |
'Good' | 'Perfect'`) extended with `Excellent`, the extra value produced by
`determineStrictQuality` and written back through a TS `as any` cast. -/
inductive QualityLevel where
  | critical
  | poor
  | average
  | good
  | perfect
  | excellent
deriving DecidableEq, Repr

/-- Issue severity union from types.ts. -/
inductive Severity where
  | critical
  | major
  | minor
deriving DecidableEq, Repr

/-- Issue category union from types.ts. -/
inductive IssueCategory where
  | layout
  | mistranslation
  | terminology
  | formatting
  | grammar
  | style
  | other
deriving DecidableEq, Repr

/-- Optional bounding box of an issue (types.ts `boundingBox`). -/
structure BoundingBox where
  x : Int
  y : Int
  width : Int
  height : Int
deriving DecidableEq, Repr

/-- The six score dimensions of types.ts `QaScores`. -/
structure QaScores where
  accuracy : Int
  terminology : Int
  layout : Int
  grammar : Int
  formatting : Int
  localizationTone : Int
deriving DecidableEq, Repr

/-- One reported issue (types.ts `QaIssue`). -/
structure QaIssue where
  id : String
  location : String
  boundingBox : Option BoundingBox
  issueCategory : IssueCategory
  severity : Severity
  sourceText : String
  targetText : String
  description : String
  suggestionsTarget : List String
deriving DecidableEq, Repr

/-- The `overall` block of types.ts `ScreenshotReport`. -/
structure Overall where
  qualityLevel : QualityLevel
  scores : QaScores
  sceneDescription : String
  mainProblemsSummary : String
deriving DecidableEq, Repr

/-- The `summary` block of types.ts `ScreenshotReport`. -/
structure ReportSummary where
  severeCount : Int
  majorCount : Int
  minorCount : Int
  optimizationAdvice : String
  termAdvice : String
deriving DecidableEq, Repr

/-- A structurally valid report (types.ts `ScreenshotReport`). -/
structure ScreenshotReport where
  screenshotId : String
  overall : Overall
  issues : List QaIssue
  summary : ReportSummary
deriving DecidableEq, Repr

/-- Key selecting one of the six dimensions of `QaScores`. -/
inductive ScoreKey where
  | accuracy
  | terminology
  | layout
  | grammar
  | formatting
  | localizationTone
deriving DecidableEq, Repr

/-- Read one dimension of a `QaScores` record. -/
def scoreGet (s : QaScores) : ScoreKey → Int
  | ScoreKey.accuracy => s.accuracy
  | ScoreKey.terminology => s.terminology
  | ScoreKey.layout => s.layout
  | ScoreKey.grammar => s.grammar
  | ScoreKey.formatting => s.formatting
  | ScoreKey.localizationTone => s.localizationTone

/-- Write one dimension of a `QaScores` record. -/
def scoreSet (s : QaScores) (k : ScoreKey) (v : Int) : QaScores :=
  match k with
  | ScoreKey.accuracy => { s with accuracy := v }
  | ScoreKey.terminology => { s with terminology := v }
  | ScoreKey.layout => { s with layout := v }
  | ScoreKey.grammar => { s with grammar := v }
  | ScoreKey.formatting => { s with formatting := v }
  | ScoreKey.localizationTone => { s with localizationTone := v }

/-- The category-to-dimension switch of `enforceScoreConsistency`
(reportGenerator.ts lines 201 to 209); the `default` branch yields `none`. -/
def categoryScoreKey : IssueCategory → Option ScoreKey
  | IssueCategory.mistranslation => some ScoreKey.accuracy
  | IssueCategory.terminology => some ScoreKey.terminology
  | IssueCategory.layout => some ScoreKey.layout
  | IssueCategory.grammar => some ScoreKey.grammar
  | IssueCategory.formatting => some ScoreKey.formatting
  | IssueCategory.style => some ScoreKey.localizationTone
  | _ => none

/-- The severity-to-cap branches of `enforceScoreConsistency`
(reportGenerator.ts lines 213 to 222): Critical caps at 1, Major at 2,
Minor at 4. -/
def severityCap : Severity → Int
  | Severity.critical => 1
  | Severity.major => 2
  | Severity.minor => 4

/-- Body of the `issues.forEach` loop of `enforceScoreConsistency`: apply one
issue to the running scores, capping the mapped dimension at the severity
cap via `Math.min`. -/
def applyIssue (scores : QaScores) (issue : QaIssue) : QaScores :=
  match categoryScoreKey issue.issueCategory with
  | none => scores
  | some k => scoreSet scores k (min (scoreGet scores k) (severityCap issue.severity))

/-- reportGenerator.ts `enforceScoreConsistency`: sequentially applies every
issue to `report.overall.scores` (the TS function mutates the report in
place; here the updated report is returned). -/
def enforceScoreConsistency (report : ScreenshotReport) : ScreenshotReport :=
  { report with overall :=
      { report.overall with scores := report.issues.foldl applyIssue report.overall.scores } }

/-- reportGenerator.ts `determineStrictQuality` (lines 171 to 191). -/
def determineStrictQuality (report : ScreenshotReport) : QualityLevel :=
  if report.issues.any (fun i => i.severity == Severity.critical) = true then
    QualityLevel.critical
  else if report.overall.qualityLevel = QualityLevel.critical then
    QualityLevel.critical
  else if report.issues.any (fun i => i.severity == Severity.major) = true
      ∨ 3 < (report.issues.filter (fun i => i.severity == Severity.minor)).length then
    QualityLevel.poor
  else if report.issues.length = 0 then
    QualityLevel.excellent
  else
    QualityLevel.good

/-- The normalization step performed on every successful analysis response
in llmService.ts `callTranslationQaLLM` (lines 251 to 258): score-cap
enforcement followed by overwriting `overall.qualityLevel` with the strict
tier computed on the enforced report. -/
def normalizeReport (report : ScreenshotReport) : ScreenshotReport :=
  let r1 := enforceScoreConsistency report
  { r1 with overall := { r1.overall with qualityLevel := determineStrictQuality r1 } }

/-- C1: the normalized quality tier is computed in strict priority order:
Critical if some issue has severity Critical or the upstream level is
Critical (so an empty issue list with upstream level Critical still yields
Critical); otherwise Poor if some issue has severity Major or strictly more
than 3 issues have severity Minor; otherwise Excellent if the issue list is
empty; otherwise Good. -/
theorem strict_quality_priority_order (r : ScreenshotReport) :
    determineStrictQuality r =
      if (∃ i ∈ r.issues, i.severity = Severity.critical)
          ∨ r.overall.qualityLevel = QualityLevel.critical then
        QualityLevel.critical
      else if (∃ i ∈ r.issues, i.severity = Severity.major)
          ∨ 3 < (r.issues.filter (fun i => i.severity == Severity.minor)).length then
        QualityLevel.poor
      else if r.issues = [] then
        QualityLevel.excellent
      else
        QualityLevel.good := by
  unfold determineStrictQuality
  by_cases hc : ∃ i ∈ r.issues, i.severity = Severity.critical
  · have hany : r.issues.any (fun i => i.severity == Severity.critical) = true := by
      rw [List.any_eq_true]
      rcases hc with ⟨i, hi, hsev⟩
      exact ⟨i, hi, by simp [hsev]⟩
    simp [hany, hc]
  · have hany : r.issues.any (fun i => i.severity == Severity.critical) = false := by
      rw [List.any_eq_false]
      intro i hi
      simp only [beq_iff_eq]
      exact fun h => hc ⟨i, hi, h⟩
    by_cases hq : r.overall.qualityLevel = QualityLevel.critical
    · simp [hany, hc, hq]
    · have hnot : ¬ ((∃ i ∈ r.issues, i.severity = Severity.critical)
          ∨ r.overall.qualityLevel = QualityLevel.critical) := by
        rintro (h | h)
        · exact hc h
        · exact hq h
      by_cases hm : (∃ i ∈ r.issues, i.severity = Severity.major)
          ∨ 3 < (r.issues.filter (fun i => i.severity == Severity.minor)).length
      · have hmany : (r.issues.any (fun i => i.severity == Severity.major) = true
            ∨ 3 < (r.issues.filter (fun i => i.severity == Severity.minor)).length) := by
          rcases hm with hmaj | hlen
          · left
            rw [List.any_eq_true]
            rcases hmaj with ⟨i, hi, hsev⟩
            exact ⟨i, hi, by simp [hsev]⟩
          · right; exact hlen
        simp [hany, hq, hnot, hmany, hm, hc]
      · have hmany : ¬ (r.issues.any (fun i => i.severity == Severity.major) = true
            ∨ 3 < (r.issues.filter (fun i => i.severity == Severity.minor)).length) := by
          rintro (h | h)
          · rw [List.any_eq_true] at h
            rcases h with ⟨i, hi, hsev⟩
            exact hm (Or.inl ⟨i, hi, by simpa using hsev⟩)
          · exact hm (Or.inr h)
        by_cases he : r.issues = []
        · simp [hany, hq, hnot, hmany, hm, he, hc]
        · have hlen : ¬ r.issues.length = 0 := by
            simpa [List.length_eq_zero] using he
          simp [hany, hq, hnot, hmany, hm, he, hlen, hc]

/-- Modelled from the spec claim wording: the fixed category-to-dimension
table (mistranslation to accuracy, terminology to terminology, layout to
layout, grammar to grammar, formatting to formatting, style to tone;
other categories impose no cap). Written independently of
`categoryScoreKey` so the claim is checked against the code table. -/
def claimDimension : IssueCategory → Option ScoreKey
  | IssueCategory.mistranslation => some ScoreKey.accuracy
  | IssueCategory.terminology => some ScoreKey.terminology
  | IssueCategory.layout => some ScoreKey.layout
  | IssueCategory.grammar => some ScoreKey.grammar
  | IssueCategory.formatting => some ScoreKey.formatting
  | IssueCategory.style => some ScoreKey.localizationTone
  | IssueCategory.other => none

/-- Modelled from the spec claim wording: a Critical issue caps at 1, a
Major at 2, a Minor at 4. -/
def claimCap : Severity → Int
  | Severity.critical => 1
  | Severity.major => 2
  | Severity.minor => 4

/-- Cap contributed by a single issue to the dimension `k`, following the
claim wording. -/
def issueCap (k : ScoreKey) (i : QaIssue) : Option Int :=
  match claimDimension i.issueCategory with
  | some k2 => if k2 = k then some (claimCap i.severity) else none
  | none => none

/-- Tightest cap implied by a list of issues for the dimension `k`
(minimum of the individual caps; `none` when no issue touches `k`). -/
def tightestCap (k : ScoreKey) : List QaIssue → Option Int
  | [] => none
  | i :: rest =>
    match issueCap k i, tightestCap k rest with
    | none, t => t
    | some c, none => some c
    | some c, some t => some (min c t)

lemma claimDimension_eq_categoryScoreKey (c : IssueCategory) :
    claimDimension c = categoryScoreKey c := by
  cases c <;> rfl

lemma claimCap_eq_severityCap (s : Severity) : claimCap s = severityCap s := by
  cases s <;> rfl

lemma scoreGet_scoreSet (s : QaScores) (k2 : ScoreKey) (v : Int) (k : ScoreKey) :
    scoreGet (scoreSet s k2 v) k = if k = k2 then v else scoreGet s k := by
  cases k <;> cases k2 <;> simp [scoreGet, scoreSet]

lemma scores_ext (a b : QaScores) (h : ∀ k, scoreGet a k = scoreGet b k) : a = b := by
  cases a
  cases b
  have h1 := h ScoreKey.accuracy
  have h2 := h ScoreKey.terminology
  have h3 := h ScoreKey.layout
  have h4 := h ScoreKey.grammar
  have h5 := h ScoreKey.formatting
  have h6 := h ScoreKey.localizationTone
  simp [scoreGet] at h1 h2 h3 h4 h5 h6
  simp [h1, h2, h3, h4, h5, h6]

/-- Per-dimension characterization of the sequential capping fold: the
result is the original score clamped by the tightest applicable cap. -/
lemma scoreGet_foldl_applyIssue (issues : List QaIssue) (s : QaScores) (k : ScoreKey) :
    scoreGet (issues.foldl applyIssue s) k =
      match tightestCap k issues with
      | none => scoreGet s k
      | some c => min (scoreGet s k) c := by
  induction issues generalizing s with
  | nil => rfl
  | cons i rest ih =>
    have hcons : tightestCap k (i :: rest) =
        match issueCap k i, tightestCap k rest with
        | none, t => t
        | some c, none => some c
        | some c, some t => some (min c t) := rfl
    rw [List.foldl_cons, ih (applyIssue s i)]
    rcases hck : claimDimension i.issueCategory with _ | k2
    · have hic : issueCap k i = none := by
        unfold issueCap
        rw [hck]
      have happ : applyIssue s i = s := by
        unfold applyIssue
        rw [← claimDimension_eq_categoryScoreKey, hck]
      rw [happ, hcons, hic]
    · have happ : applyIssue s i =
          scoreSet s k2 (min (scoreGet s k2) (claimCap i.severity)) := by
        unfold applyIssue
        rw [← claimDimension_eq_categoryScoreKey, hck, claimCap_eq_severityCap]
      by_cases hk : k2 = k
      · subst hk
        have hic : issueCap k2 i = some (claimCap i.severity) := by
          unfold issueCap
          rw [hck]
          simp
        rw [happ, hcons, hic]
        rcases ht : tightestCap k2 rest with _ | t
        · simp [scoreGet_scoreSet]
        · simp only [scoreGet_scoreSet, eq_self_iff_true, if_true]
          rw [min_assoc]
      · have hkk : ¬ k = k2 := fun h => hk h.symm
        have hic : issueCap k i = none := by
          unfold issueCap
          rw [hck]
          simp [hk]
        rw [happ, hcons, hic]
        rcases ht : tightestCap k rest with _ | t
        · simp [scoreGet_scoreSet, hkk]
        · simp [scoreGet_scoreSet, hkk]

/-- C6: for every structurally valid report and every score dimension, the
normalized score equals the minimum of the original score and the tightest
cap implied by the issues mapped to that dimension (Critical caps at 1,
Major at 2, Minor at 4, via the fixed category table; unmapped categories
impose no cap), and in particular no score is ever raised. -/
theorem score_cap_equals_tightest (r : ScreenshotReport) (k : ScoreKey) :
    scoreGet (enforceScoreConsistency r).overall.scores k =
      (match tightestCap k r.issues with
       | none => scoreGet r.overall.scores k
       | some c => min (scoreGet r.overall.scores k) c)
    ∧ scoreGet (enforceScoreConsistency r).overall.scores k ≤ scoreGet r.overall.scores k := by
  have hmain : scoreGet (enforceScoreConsistency r).overall.scores k =
      (match tightestCap k r.issues with
       | none => scoreGet r.overall.scores k
       | some c => min (scoreGet r.overall.scores k) c) := by
    show scoreGet (r.issues.foldl applyIssue r.overall.scores) k = _
    exact scoreGet_foldl_applyIssue r.issues r.overall.scores k
  refine ⟨hmain, ?_⟩
  rw [hmain]
  rcases tightestCap k r.issues with _ | c
  · exact le_refl _
  · exact min_le_left _ _

/-- Case of `scoreGet_foldl_applyIssue` with no applicable cap. -/
lemma scoreGet_foldl_none (issues : List QaIssue) (s : QaScores) (k : ScoreKey)
    (ht : tightestCap k issues = none) :
    scoreGet (issues.foldl applyIssue s) k = scoreGet s k := by
  rw [scoreGet_foldl_applyIssue, ht]

/-- Case of `scoreGet_foldl_applyIssue` with a tightest cap present. -/
lemma scoreGet_foldl_some (issues : List QaIssue) (s : QaScores) (k : ScoreKey)
    (c : Int) (ht : tightestCap k issues = some c) :
    scoreGet (issues.foldl applyIssue s) k = min (scoreGet s k) c := by
  rw [scoreGet_foldl_applyIssue, ht]

/-- The capping fold is idempotent on scores. -/
lemma foldl_applyIssue_idem (issues : List QaIssue) (s : QaScores) :
    issues.foldl applyIssue (issues.foldl applyIssue s) = issues.foldl applyIssue s := by
  apply scores_ext
  intro k
  rcases ht : tightestCap k issues with _ | c
  · rw [scoreGet_foldl_none issues _ k ht]
  · rw [scoreGet_foldl_some issues _ k c ht, scoreGet_foldl_some issues s k c ht,
      min_assoc, min_self]

/-- The strict tier reads only the issue list and the upstream quality
level. -/
lemma strict_congr (a b : ScreenshotReport) (h1 : a.issues = b.issues)
    (h2 : a.overall.qualityLevel = b.overall.qualityLevel) :
    determineStrictQuality a = determineStrictQuality b := by
  unfold determineStrictQuality
  rw [h1, h2]

/-- Overwriting the quality level with the strict tier does not change the
strict tier computed afterwards. -/
lemma strict_overwrite (r : ScreenshotReport) :
    determineStrictQuality
      { r with overall := { r.overall with qualityLevel := determineStrictQuality r } } =
    determineStrictQuality r := by
  have hL : determineStrictQuality
      { r with overall := { r.overall with qualityLevel := determineStrictQuality r } } =
      (if r.issues.any (fun i => i.severity == Severity.critical) = true then
        QualityLevel.critical
      else if determineStrictQuality r = QualityLevel.critical then
        QualityLevel.critical
      else if r.issues.any (fun i => i.severity == Severity.major) = true
          ∨ 3 < (r.issues.filter (fun i => i.severity == Severity.minor)).length then
        QualityLevel.poor
      else if r.issues.length = 0 then
        QualityLevel.excellent
      else
        QualityLevel.good) := rfl
  have hR : determineStrictQuality r =
      (if r.issues.any (fun i => i.severity == Severity.critical) = true then
        QualityLevel.critical
      else if r.overall.qualityLevel = QualityLevel.critical then
        QualityLevel.critical
      else if r.issues.any (fun i => i.severity == Severity.major) = true
          ∨ 3 < (r.issues.filter (fun i => i.severity == Severity.minor)).length then
        QualityLevel.poor
      else if r.issues.length = 0 then
        QualityLevel.excellent
      else
        QualityLevel.good) := rfl
  by_cases hA : r.issues.any (fun i => i.severity == Severity.critical) = true
  · rw [hL, if_pos hA, hR, if_pos hA]
  · rw [hL, if_neg hA]
    by_cases hB : r.overall.qualityLevel = QualityLevel.critical
    · have ht : determineStrictQuality r = QualityLevel.critical := by
        rw [hR, if_neg hA, if_pos hB]
      rw [ht, if_pos rfl]
    · by_cases hC : (r.issues.any (fun i => i.severity == Severity.major) = true
          ∨ 3 < (r.issues.filter (fun i => i.severity == Severity.minor)).length)
      · have ht : determineStrictQuality r = QualityLevel.poor := by
          rw [hR, if_neg hA, if_neg hB, if_pos hC]
        rw [ht, if_neg (by decide : ¬ (QualityLevel.poor = QualityLevel.critical)),
          if_pos hC]
      · by_cases hD : r.issues.length = 0
        · have ht : determineStrictQuality r = QualityLevel.excellent := by
            rw [hR, if_neg hA, if_neg hB, if_neg hC, if_pos hD]
          rw [ht, if_neg (by decide : ¬ (QualityLevel.excellent = QualityLevel.critical)),
            if_neg hC, if_pos hD]
        · have ht : determineStrictQuality r = QualityLevel.good := by
            rw [hR, if_neg hA, if_neg hB, if_neg hC, if_neg hD]
          rw [ht, if_neg (by decide : ¬ (QualityLevel.good = QualityLevel.critical)),
            if_neg hC, if_neg hD]

/-- C5: normalization (score-cap enforcement followed by overwriting the
overall quality level with the strict tier) is idempotent. -/
theorem normalize_idempotent (r : ScreenshotReport) :
    normalizeReport (normalizeReport r) = normalizeReport r := by
  have hA : enforceScoreConsistency (normalizeReport r) = normalizeReport r := by
    simp only [normalizeReport, enforceScoreConsistency]
    rw [foldl_applyIssue_idem]
  have hB : determineStrictQuality (normalizeReport r) =
      determineStrictQuality (enforceScoreConsistency r) :=
    strict_overwrite (enforceScoreConsistency r)
  show ({ enforceScoreConsistency (normalizeReport r) with overall :=
      { (enforceScoreConsistency (normalizeReport r)).overall with
        qualityLevel := determineStrictQuality (enforceScoreConsistency (normalizeReport r)) } }
      : ScreenshotReport) = normalizeReport r
  rw [hA, hB]
  rfl

/-- Report used in the counterexample to the literal reading of C7 and in
several witnesses: no issues, upstream level Good, all scores 5. -/
def reportA : ScreenshotReport :=
  { screenshotId := "s1"
    overall :=
      { qualityLevel := QualityLevel.good
        scores :=
          { accuracy := 5, terminology := 5, layout := 5, grammar := 5
            formatting := 5, localizationTone := 5 }
        sceneDescription := "scene"
        mainProblemsSummary := "none" }
    issues := []
    summary :=
      { severeCount := 0, majorCount := 0, minorCount := 0
        optimizationAdvice := "", termAdvice := "" } }

/-- Same as `reportA` except for the accuracy score. -/
def reportB : ScreenshotReport :=
  { reportA with overall := { reportA.overall with scores :=
      { reportA.overall.scores with accuracy := 3 } } }

/-- C7 counterexample: two reports with identical issue lists and identical
upstream quality levels whose normalization results differ, so the
normalize result does not depend only on the issues list and the upstream
quality level. -/
theorem normalize_reads_more_than_issues_and_level :
    reportA.issues = reportB.issues
    ∧ reportA.overall.qualityLevel = reportB.overall.qualityLevel
    ∧ normalizeReport reportA ≠ normalizeReport reportB := by
  refine ⟨rfl, rfl, ?_⟩
  decide

/-- C7 amended: the normalized quality tier, rather than the whole
normalized report, depends only on the issues list and the upstream
quality level. -/
theorem normalize_tier_depends_only_on_issues_and_level
    (r s : ScreenshotReport) (h1 : r.issues = s.issues)
    (h2 : r.overall.qualityLevel = s.overall.qualityLevel) :
    (normalizeReport r).overall.qualityLevel = (normalizeReport s).overall.qualityLevel := by
  show determineStrictQuality (enforceScoreConsistency r) =
    determineStrictQuality (enforceScoreConsistency s)
  exact strict_congr _ _ h1 h2

/-- Witness for the amended C7 theorem at two concrete reports differing
only in their scores. -/
theorem normalize_tier_depends_only_witness :
    (normalizeReport reportA).overall.qualityLevel =
      (normalizeReport reportB).overall.qualityLevel :=
  normalize_tier_depends_only_on_issues_and_level reportA reportB rfl rfl

/-- A report as it comes straight out of `JSON.parse` in
`callTranslationQaLLM` (llmService.ts line 232): no field is guaranteed to
be present. -/
structure RawReport where
  screenshotId : Option String
  overall : Option Overall
  issues : Option (List QaIssue)
  summary : Option ReportSummary
deriving DecidableEq, Repr

/-- A report as returned by the post-parse pipeline: `screenshotId` is
polyfilled and `issues` defaulted, but `summary` is whatever the parse
produced, possibly absent. -/
structure LooseReport where
  screenshotId : String
  overall : Overall
  issues : List QaIssue
  summary : Option ReportSummary
deriving DecidableEq, Repr

/-- reportGenerator.ts `determineStrictQuality` applied to a report whose
summary may be absent; the TS function never reads `summary`, so the body
is identical. -/
def determineStrictQualityLoose (report : LooseReport) : QualityLevel :=
  if report.issues.any (fun i => i.severity == Severity.critical) = true then
    QualityLevel.critical
  else if report.overall.qualityLevel = QualityLevel.critical then
    QualityLevel.critical
  else if report.issues.any (fun i => i.severity == Severity.major) = true
      ∨ 3 < (report.issues.filter (fun i => i.severity == Severity.minor)).length then
    QualityLevel.poor
  else if report.issues.length = 0 then
    QualityLevel.excellent
  else
    QualityLevel.good

/-- Post-parse pipeline of `callTranslationQaLLM` (llmService.ts lines 240
to 262): polyfill `screenshotId` from the request, default a missing
`issues` array to `[]`, run `enforceScoreConsistency`, then overwrite
`overall.qualityLevel` with `determineStrictQuality`. There is no
structural validation step: a missing `overall` surfaces as a thrown
`TypeError` when the normalizer dereferences it (caught and rethrown by
the surrounding try block), while a missing `summary` is not detected at
all and flows through normalization into the returned report. -/
def processParsedReport (requestId : String) (raw : RawReport) : Except String LooseReport :=
  let issues := raw.issues.getD []
  match raw.overall with
  | none => Except.error "TypeError: cannot read properties of undefined"
  | some ov =>
    let capped := issues.foldl applyIssue ov.scores
    let enforced : LooseReport :=
      { screenshotId := requestId
        overall := { ov with scores := capped }
        issues := issues
        summary := raw.summary }
    Except.ok { enforced with overall :=
        { enforced.overall with qualityLevel := determineStrictQualityLoose enforced } }

/-- Parsed report with `overall` and `issues` present but `summary`
missing, used against C9. -/
def rawMissingSummary : RawReport :=
  { screenshotId := none
    overall := some
      { qualityLevel := QualityLevel.perfect
        scores :=
          { accuracy := 5, terminology := 5, layout := 5, grammar := 5
            formatting := 5, localizationTone := 5 }
        sceneDescription := "scene"
        mainProblemsSummary := "summary" }
    issues := some
      [{ id := "ISSUE-01"
         location := "Header"
         boundingBox := none
         issueCategory := IssueCategory.layout
         severity := Severity.major
         sourceText := "Settings"
         targetText := "Einstellungen"
         description := "overlap"
         suggestionsTarget := ["Resize container"] }]
    summary := none }

/-- C9 counterexample: a parsed report missing the `summary` field is not
rejected as a Validation failure; the pipeline normalizes it (the layout
score is capped to 2 by the Major layout issue and the quality level is
overwritten with the strict tier Poor) and returns it successfully. -/
theorem missing_summary_is_normalized_not_rejected :
    rawMissingSummary.summary = none
    ∧ processParsedReport "s1" rawMissingSummary = Except.ok
        { screenshotId := "s1"
          overall :=
            { qualityLevel := QualityLevel.poor
              scores :=
                { accuracy := 5, terminology := 5, layout := 2, grammar := 5
                  formatting := 5, localizationTone := 5 }
              sceneDescription := "scene"
              mainProblemsSummary := "summary" }
          issues :=
            [{ id := "ISSUE-01"
               location := "Header"
               boundingBox := none
               issueCategory := IssueCategory.layout
               severity := Severity.major
               sourceText := "Settings"
               targetText := "Einstellungen"
               description := "overlap"
               suggestionsTarget := ["Resize container"] }]
          summary := none } := by
  constructor
  · rfl
  · rfl

/-- C9 amended: the pipeline rejects a parsed report exactly when its
`overall` field is missing (and then via a thrown TypeError inside the
normalization step, not via a prior validation step); a missing `issues`
field is defaulted to the empty list and a missing `summary` field is not
rejected, so such reports are normalized and returned. -/
theorem parsed_report_rejected_iff_overall_missing (requestId : String) (raw : RawReport) :
    (processParsedReport requestId raw).isOk = raw.overall.isSome := by
  rcases raw with ⟨sid, ov, iss, summ⟩
  cases ov
  · rfl
  · rfl

/-- Identity of one batch item as read by the orchestrator (the `id` and
`fileName` fields of types.ts `ScreenshotPair`; the image URLs and target
language only feed the opaque analysis payload). -/
structure PairInfo where
  id : String
  fileName : String
deriving DecidableEq, Repr

/-- One entry of the aggregate error log (types.ts `BulkProcessingState`
field `errors`). -/
structure BatchError where
  id : String
  fileName : String
  error : String
deriving DecidableEq, Repr

/-- Result of one `processItem` call: the boolean it returns, the number of
`callTranslationQaLLM` invocations it made, and the error-log entries it
appended. -/
structure ProcResult where
  success : Bool
  calls : Nat
  errors : List BatchError
deriving DecidableEq, Repr

/-- App.tsx `processItem` (startBulkAnalysis, lines 296 to 336), modelled
over the stream of outcomes of its successive `callTranslationQaLLM`
invocations. `env j` is the settled outcome of invocation `j` of the raced
analysis call for this item (a timeout rejection is an error outcome like
any other), and `ab j` is the value of `signal.aborted` observed at the
entry check of recursion depth `j`; the retry condition after a failed
attempt at depth `j` reads the same flag as the entry check of depth
`j + 1`, since no suspension point separates them. On entry with the
signal aborted the call returns false without appending anything; on a
failure with budget left and no abort it recurses with `retries - 1`; on
the terminal failure it appends one error entry carrying the current
(last) message. -/
def processItemRun (item : PairInfo) (env : Nat → Except String ScreenshotReport)
    (ab : Nat → Bool) : Nat → Nat → ProcResult
  | k, 0 =>
    if ab k then { success := false, calls := 0, errors := [] }
    else
      match env k with
      | Except.ok _ => { success := true, calls := 1, errors := [] }
      | Except.error msg =>
        { success := false, calls := 1
          errors := [{ id := item.id, fileName := item.fileName, error := msg }] }
  | k, r + 1 =>
    if ab k then { success := false, calls := 0, errors := [] }
    else
      match env k with
      | Except.ok _ => { success := true, calls := 1, errors := [] }
      | Except.error msg =>
        if ab (k + 1) then
          { success := false, calls := 1
            errors := [{ id := item.id, fileName := item.fileName, error := msg }] }
        else
          let rest := processItemRun item env ab (k + 1) r
          { rest with calls := rest.calls + 1 }

/-- The number of analysis invocations made by the `processItem` retry
ladder is bounded by the budget plus one, whatever the outcomes and abort
observations. -/
lemma processItemRun_calls_le (item : PairInfo) (env : Nat → Except String ScreenshotReport)
    (ab : Nat → Bool) (k r : Nat) :
    (processItemRun item env ab k r).calls ≤ r + 1 := by
  induction r generalizing k with
  | zero =>
    unfold processItemRun
    rcases hab : ab k
    · rcases henv : env k with msg | rep <;> simp [hab, henv]
    · simp [hab]
  | succ r ih =>
    unfold processItemRun
    rcases hab : ab k
    · rcases henv : env k with msg | rep
      · rcases hab2 : ab (k + 1)
        · have h := ih (k + 1)
          simp [hab, henv, hab2]
          omega
        · simp [hab, henv, hab2]
      · simp [hab, henv]
    · simp [hab]

/-- Exhaustion shape of the retry ladder: when the signal is never aborted
and every attempt from `k` through `k + r` fails with message `msgs j`,
`processItem` returns false, makes `r + 1` invocations, and appends
exactly one error entry, carrying the message of the last attempt. -/
lemma processItemRun_exhaustion (item : PairInfo) (env : Nat → Except String ScreenshotReport)
    (ab : Nat → Bool) (msgs : Nat → String) (hab : ∀ j, ab j = false)
    (r k : Nat) (henv : ∀ j, j ≤ r → env (k + j) = Except.error (msgs (k + j))) :
    processItemRun item env ab k r =
      { success := false, calls := r + 1
        errors := [{ id := item.id, fileName := item.fileName, error := msgs (k + r) }] } := by
  induction r generalizing k with
  | zero =>
    have h0 : env k = Except.error (msgs k) := by
      have := henv 0 (le_refl 0)
      simpa using this
    unfold processItemRun
    simp [hab k, h0]
  | succ r ih =>
    have h0 : env k = Except.error (msgs k) := by
      have := henv 0 (Nat.zero_le _)
      simpa using this
    have hrec := ih (k + 1) (by
      intro j hj
      have := henv (j + 1) (by omega)
      have harith : k + (j + 1) = k + 1 + j := by omega
      rw [harith] at this
      exact this)
    unfold processItemRun
    rw [hab k, h0]
    simp only [Bool.false_eq_true, if_false, hab (k + 1), hrec]
    have harith : k + 1 + r = k + (r + 1) := by omega
    simp [harith]

/-- C8: when an item exhausts its retry budget without success (every
attempt fails) and no cancellation occurs, exactly one error entry
carrying the item id, file name and the message of the last attempt is
produced for the batch error log; earlier attempt messages are discarded. -/
theorem exhausted_item_logs_last_error_once (item : PairInfo)
    (env : Nat → Except String ScreenshotReport) (ab : Nat → Bool)
    (msgs : Nat → String) (r : Nat) (hab : ∀ j, ab j = false)
    (henv : ∀ j, j ≤ r → env j = Except.error (msgs j)) :
    (processItemRun item env ab 0 r).errors =
      [{ id := item.id, fileName := item.fileName, error := msgs r }]
    ∧ (processItemRun item env ab 0 r).success = false := by
  have h := processItemRun_exhaustion item env ab msgs hab r 0 (by
    intro j hj
    simpa using henv j hj)
  rw [show (0 : Nat) + r = r by omega] at h
  rw [h]
  exact ⟨rfl, rfl⟩

/-- Environment in which every analysis attempt fails, used by witnesses. -/
def envAllFail : Nat → Except String ScreenshotReport :=
  fun j => Except.error ("attempt " ++ toString j ++ " failed")

/-- Abort-flag stream of a run that is never cancelled. -/
def neverAborted : Nat → Bool := fun _ => false

/-- Item identity used in concrete runs. -/
def itemA : PairInfo := { id := "p1", fileName := "shot1.png" }

/-- Witness for C8 at a concrete all-failing run with the reference budget
of 2: the error log receives the single entry for the third (last)
attempt. -/
theorem exhausted_item_logs_last_error_once_witness :
    (processItemRun itemA envAllFail neverAborted 0 2).errors =
      [{ id := itemA.id, fileName := itemA.fileName, error := "attempt 2 failed" }]
    ∧ (processItemRun itemA envAllFail neverAborted 0 2).success = false :=
  exhausted_item_logs_last_error_once itemA envAllFail neverAborted
    (fun j => "attempt " ++ toString j ++ " failed") 2
    (fun _ => rfl) (fun _ _ => rfl)

/-- Outcome of one attempt inside `retryWithBackoff` in
`callTranslationQaLLM` (llmService.ts lines 168 to 268): either
`processImageUrl` throws before `ai.models.generateContent` is reached, or
the LLM call is made and the attempt then settles (API error, empty
response, JSON parse error, normalization TypeError, or a report). -/
inductive InnerAttempt where
  | imageError (msg : String)
  | llmSettled (outcome : Except String ScreenshotReport)
deriving Repr

/-- Settled result of one inner attempt. -/
def innerOutcome : InnerAttempt → Except String ScreenshotReport
  | InnerAttempt.imageError msg => Except.error msg
  | InnerAttempt.llmSettled outcome => outcome

/-- Number of `ai.models.generateContent` invocations made by one inner
attempt (1 unless the attempt failed before reaching the LLM). -/
def innerLlmCalls : InnerAttempt → Nat
  | InnerAttempt.imageError _ => 0
  | InnerAttempt.llmSettled _ => 1

/-- llmService.ts `retryWithBackoff` (lines 144 to 157) over the stream of
inner attempts starting at position `pos`: result, number of attempts
consumed, number of LLM invocations made. The backoff delays are dropped;
with `retries = 0` a failure is rethrown, otherwise the call recurses with
`retries - 1`. -/
def retryWithBackoff (env : Nat → InnerAttempt) : Nat → Nat → Except String ScreenshotReport × Nat × Nat
  | pos, 0 => (innerOutcome (env pos), 1, innerLlmCalls (env pos))
  | pos, r + 1 =>
    match innerOutcome (env pos) with
    | Except.ok rep => (Except.ok rep, 1, innerLlmCalls (env pos))
    | Except.error msg =>
      let rest := retryWithBackoff env (pos + 1) r
      (rest.1, rest.2.1 + 1, rest.2.2 + innerLlmCalls (env pos))

/-- Result of the full nested retry structure for one item. -/
structure DeepResult where
  success : Bool
  qaCalls : Nat
  llmCalls : Nat
deriving DecidableEq, Repr

/-- Composition of App.tsx `processItem` (outer retry ladder, budget
`retries`) with llmService.ts `callTranslationQaLLM` (each invocation is
`retryWithBackoff` with its default budget of 2 over the shared stream of
inner attempts). `pos` is the position of the next unconsumed inner
attempt, `attempt` indexes the outer abort checks as in
`processItemRun`, and the outer ladder observes each invocation's settled
outcome. `qaCalls` counts `callTranslationQaLLM` invocations and
`llmCalls` counts `ai.models.generateContent` invocations. -/
def processItemDeep (env : Nat → InnerAttempt) (ab : Nat → Bool) :
    Nat → Nat → Nat → DeepResult
  | pos, attempt, 0 =>
    if ab attempt then { success := false, qaCalls := 0, llmCalls := 0 }
    else
      match retryWithBackoff env pos 2 with
      | (Except.ok _, _, calls) => { success := true, qaCalls := 1, llmCalls := calls }
      | (Except.error _, _, calls) => { success := false, qaCalls := 1, llmCalls := calls }
  | pos, attempt, r + 1 =>
    if ab attempt then { success := false, qaCalls := 0, llmCalls := 0 }
    else
      match retryWithBackoff env pos 2 with
      | (Except.ok _, _, calls) => { success := true, qaCalls := 1, llmCalls := calls }
      | (Except.error _, used, calls) =>
        if ab (attempt + 1) then { success := false, qaCalls := 1, llmCalls := calls }
        else
          let rest := processItemDeep env ab (pos + used) (attempt + 1) r
          { success := rest.success, qaCalls := rest.qaCalls + 1
            llmCalls := rest.llmCalls + calls }

/-- Each `retryWithBackoff` run with budget `r` makes at most `r + 1` LLM
invocations. -/
lemma retryWithBackoff_llm_le (env : Nat → InnerAttempt) (pos r : Nat) :
    (retryWithBackoff env pos r).2.2 ≤ r + 1 := by
  induction r generalizing pos with
  | zero =>
    unfold retryWithBackoff
    rcases env pos with msg | outcome
    · simp [innerLlmCalls]
    · simp [innerLlmCalls]
  | succ r ih =>
    unfold retryWithBackoff
    rcases henv : innerOutcome (env pos) with msg | rep
    · have h := ih (pos + 1)
      have hc : innerLlmCalls (env pos) ≤ 1 := by
        rcases env pos with m | o <;> simp [innerLlmCalls]
      simp [henv]
      omega
    · have hc : innerLlmCalls (env pos) ≤ 1 := by
        rcases env pos with m | o <;> simp [innerLlmCalls]
      simp [henv]
      omega

/-- Bounds on the nested retry structure: with outer budget `retries` the
outer ladder makes at most `retries + 1` `callTranslationQaLLM`
invocations, and since each of those internally makes at most 3 LLM calls,
at most `(retries + 1) * 3` LLM invocations in total. -/
lemma processItemDeep_calls_le (env : Nat → InnerAttempt) (ab : Nat → Bool)
    (pos attempt retries : Nat) :
    (processItemDeep env ab pos attempt retries).qaCalls ≤ retries + 1
    ∧ (processItemDeep env ab pos attempt retries).llmCalls ≤ (retries + 1) * 3 := by
  induction retries generalizing pos attempt with
  | zero =>
    unfold processItemDeep
    rcases hab : ab attempt
    · rcases hr : retryWithBackoff env pos 2 with ⟨res, used, calls⟩
      have hl : calls ≤ 3 := by
        have h := retryWithBackoff_llm_le env pos 2
        rw [hr] at h
        simpa using h
      rcases res with m | rep
      · simp [hab, hr]
        omega
      · simp [hab, hr]
        omega
    · simp [hab]
  | succ r ih =>
    unfold processItemDeep
    rcases hab : ab attempt
    · rcases hr : retryWithBackoff env pos 2 with ⟨res, used, calls⟩
      have hl : calls ≤ 3 := by
        have h := retryWithBackoff_llm_le env pos 2
        rw [hr] at h
        simpa using h
      rcases res with m | rep
      · rcases hab2 : ab (attempt + 1)
        · have h := ih (pos + used) (attempt + 1)
          simp [hab, hr, hab2]
          omega
        · simp [hab, hr, hab2]
          omega
      · simp [hab, hr]
        omega
    · simp [hab]

/-- Inner-attempt stream in which the LLM is reached every time and every
attempt fails afterwards. -/
def envLlmAlwaysFails : Nat → InnerAttempt :=
  fun _ => InnerAttempt.llmSettled (Except.error "503 service unavailable")

/-- C3 counterexample: with the reference budgets (outer retries 2 in
`processItem`, inner retries 2 in `retryWithBackoff`) and no cancellation,
an item whose attempts all fail drives 9 invocations of
`ai.models.generateContent`, the external analysis call, not at most 3:
the outer retry ladder restarts the inner retry ladder on every attempt. -/
theorem nested_retries_make_nine_llm_calls :
    (processItemDeep envLlmAlwaysFails neverAborted 0 0 2).llmCalls = 9
    ∧ ¬ ((processItemDeep envLlmAlwaysFails neverAborted 0 0 2).llmCalls ≤ 3) := by
  constructor
  · rfl
  · decide

/-- C3 amended: with the reference budget of 2 outer retries and no
cancellation, `callTranslationQaLLM` is invoked at most 3 times per item,
and since each such invocation internally retries the LLM call up to 2
more times, the external LLM service is invoked at most 9 times per item. -/
theorem item_analysis_call_bounds (env : Nat → InnerAttempt) (ab : Nat → Bool)
    (hab : ∀ a, ab a = false) :
    (processItemDeep env ab 0 0 2).qaCalls ≤ 3
    ∧ (processItemDeep env ab 0 0 2).llmCalls ≤ 9 := by
  have h := processItemDeep_calls_le env ab 0 0 2
  exact ⟨h.1, by have h2 := h.2; omega⟩

/-- Witness for the amended C3 bounds at the concrete all-failing run. -/
theorem item_analysis_call_bounds_witness :
    (processItemDeep envLlmAlwaysFails neverAborted 0 0 2).qaCalls ≤ 3
    ∧ (processItemDeep envLlmAlwaysFails neverAborted 0 0 2).llmCalls ≤ 9 :=
  item_analysis_call_bounds envLlmAlwaysFails neverAborted (fun _ => rfl)

/-- Item status union from types.ts `ScreenshotPair`. -/
inductive PairStatus where
  | pending
  | analyzing
  | completed
  | failed
deriving DecidableEq, Repr

/-- Mutable per-item fields written through `updatePairStatus` in App.tsx. -/
structure PairState where
  status : PairStatus
  report : Option ScreenshotReport
  errorMessage : Option String
deriving DecidableEq, Repr

/-- types.ts `BulkProcessingState`. -/
structure BulkProcessingState where
  isProcessing : Bool
  total : Nat
  completed : Nat
  success : Nat
  failed : Nat
  errors : List BatchError
  isComplete : Bool
deriving DecidableEq, Repr

/-- Phase of one worker task of `startBulkAnalysis`: in its while loop, an
item dequeued but `processItem` not yet entered, inside `processItem`, or
back from `processItem` with the boolean result but the counter update not
yet applied, or exited. -/
inductive WorkerPhase where
  | looping
  | claimed (item : PairInfo)
  | working (item : PairInfo)
  | recording (success : Bool)
  | exited
deriving DecidableEq, Repr

/-- Shared state of one batch run of `startBulkAnalysis` (App.tsx lines 274
to 358): the shared queue, the worker tasks, the caller-owned item states,
the `BulkProcessingState`, the `AbortController` signal, and whether the
scheduler has executed its completion step (line 356). -/
structure RunState where
  queue : List PairInfo
  workers : List WorkerPhase
  pairs : String → PairState
  bulk : BulkProcessingState
  aborted : Bool
  schedDone : Bool

/-- State at the start of a batch run (App.tsx lines 283 to 294): fresh
counters, a queue holding the eligible items, `concurrency` workers. -/
def initRun (c : Nat) (items : List PairInfo) (p0 : String → PairState) : RunState :=
  { queue := items
    workers := List.replicate c WorkerPhase.looping
    pairs := p0
    bulk :=
      { isProcessing := true, total := items.length, completed := 0
        success := 0, failed := 0, errors := [], isComplete := false }
    aborted := false
    schedDone := false }

/-- Worker `w` pops the head of the queue (App.tsx line 342). -/
def dequeueStep (s : RunState) (w : Nat) (i : PairInfo) (q : List PairInfo) : RunState :=
  { s with queue := q, workers := s.workers.set w (WorkerPhase.claimed i) }

/-- Worker `w` enters `processItem` with the signal already aborted
(App.tsx line 297): it returns false at once, touching nothing. -/
def enterAbortedStep (s : RunState) (w : Nat) : RunState :=
  { s with workers := s.workers.set w (WorkerPhase.recording false) }

/-- Worker `w` enters `processItem` normally (App.tsx line 298): the item
status becomes analyzing and its error message is cleared. -/
def enterStep (s : RunState) (w : Nat) (i : PairInfo) : RunState :=
  { s with
    workers := s.workers.set w (WorkerPhase.working i)
    pairs := Function.update s.pairs i.id
      { s.pairs i.id with status := PairStatus.analyzing, errorMessage := none } }

/-- The retry ladder of worker `w` ends in success (App.tsx line 319). -/
def finishOkStep (s : RunState) (w : Nat) (i : PairInfo) (rep : ScreenshotReport) : RunState :=
  { s with
    workers := s.workers.set w (WorkerPhase.recording true)
    pairs := Function.update s.pairs i.id
      { s.pairs i.id with status := PairStatus.completed, report := some rep } }

/-- The retry ladder of worker `w` ends in terminal failure (App.tsx lines
327 to 333): the item is marked failed with the last message and one entry
is appended to the aggregate error log. -/
def finishFailStep (s : RunState) (w : Nat) (i : PairInfo) (msg : String) : RunState :=
  { s with
    workers := s.workers.set w (WorkerPhase.recording false)
    pairs := Function.update s.pairs i.id
      { s.pairs i.id with status := PairStatus.failed, errorMessage := some msg }
    bulk := { s.bulk with errors :=
        s.bulk.errors ++ [{ id := i.id, fileName := i.fileName, error := msg }] } }

/-- A mid-retry entry check of worker `w` observes the abort signal
(App.tsx line 297 on a recursive call): `processItem` returns false
without further updates. -/
def abandonStep (s : RunState) (w : Nat) : RunState :=
  { s with workers := s.workers.set w (WorkerPhase.recording false) }

/-- Worker `w` applies its per-item counter update (App.tsx lines 345 to
350): `completed` increments, and `success` or `failed` does according to
the boolean `processItem` returned. -/
def recordStep (s : RunState) (w : Nat) (b : Bool) : RunState :=
  { s with
    workers := s.workers.set w WorkerPhase.looping
    bulk := { s.bulk with
      completed := s.bulk.completed + 1
      success := if b then s.bulk.success + 1 else s.bulk.success
      failed := if b then s.bulk.failed else s.bulk.failed + 1 } }

/-- Worker `w` observes an empty queue or the abort signal in its loop
condition (App.tsx line 341) and exits. -/
def exitStep (s : RunState) (w : Nat) : RunState :=
  { s with workers := s.workers.set w WorkerPhase.exited }

/-- App.tsx `handleCancelBulk` (lines 267 to 272): aborts the controller
and immediately sets `isProcessing := false` and `isComplete := true`. -/
def cancelStep (s : RunState) : RunState :=
  { s with
    aborted := true
    bulk := { s.bulk with isProcessing := false, isComplete := true } }

/-- The completion step of the scheduler after `await Promise.all(workers)`
(App.tsx lines 355 to 356). -/
def schedFinishStep (s : RunState) : RunState :=
  { s with
    schedDone := true
    bulk := { s.bulk with isProcessing := false, isComplete := true } }

/-- Interleaving semantics of one batch run. `env i` is the settled
outcome of the full retry ladder of `processItem` for item `i` (cf.
`processItemRun`); when the signal is aborted a ladder may instead end in
an early terminal failure with an arbitrary last message, or be abandoned
with no further updates. -/
inductive BatchStep (env : PairInfo → Except String ScreenshotReport) :
    RunState → RunState → Prop where
  | dequeue (s : RunState) (w : Nat) (i : PairInfo) (q : List PairInfo)
      (hw : s.workers.get? w = some WorkerPhase.looping)
      (hab : s.aborted = false) (hq : s.queue = i :: q) :
      BatchStep env s (dequeueStep s w i q)
  | enterAborted (s : RunState) (w : Nat) (i : PairInfo)
      (hw : s.workers.get? w = some (WorkerPhase.claimed i))
      (hab : s.aborted = true) :
      BatchStep env s (enterAbortedStep s w)
  | enter (s : RunState) (w : Nat) (i : PairInfo)
      (hw : s.workers.get? w = some (WorkerPhase.claimed i))
      (hab : s.aborted = false) :
      BatchStep env s (enterStep s w i)
  | finishOk (s : RunState) (w : Nat) (i : PairInfo) (rep : ScreenshotReport)
      (hw : s.workers.get? w = some (WorkerPhase.working i))
      (henv : env i = Except.ok rep) :
      BatchStep env s (finishOkStep s w i rep)
  | finishFail (s : RunState) (w : Nat) (i : PairInfo) (msg : String)
      (hw : s.workers.get? w = some (WorkerPhase.working i))
      (henv : env i = Except.error msg) :
      BatchStep env s (finishFailStep s w i msg)
  | finishFailEarly (s : RunState) (w : Nat) (i : PairInfo) (msg : String)
      (hw : s.workers.get? w = some (WorkerPhase.working i))
      (hab : s.aborted = true) :
      BatchStep env s (finishFailStep s w i msg)
  | abandon (s : RunState) (w : Nat) (i : PairInfo)
      (hw : s.workers.get? w = some (WorkerPhase.working i))
      (hab : s.aborted = true) :
      BatchStep env s (abandonStep s w)
  | record (s : RunState) (w : Nat) (b : Bool)
      (hw : s.workers.get? w = some (WorkerPhase.recording b)) :
      BatchStep env s (recordStep s w b)
  | exit (s : RunState) (w : Nat)
      (hw : s.workers.get? w = some WorkerPhase.looping)
      (hstop : s.queue = [] ∨ s.aborted = true) :
      BatchStep env s (exitStep s w)
  | cancel (s : RunState) : BatchStep env s (cancelStep s)
  | schedFinish (s : RunState)
      (hall : ∀ ph ∈ s.workers, ph = WorkerPhase.exited)
      (hd : s.schedDone = false) :
      BatchStep env s (schedFinishStep s)

/-- States reachable during a batch run over `items` with `c` workers. -/
inductive BatchReach (env : PairInfo → Except String ScreenshotReport) (c : Nat)
    (items : List PairInfo) (p0 : String → PairState) : RunState → Prop where
  | init : BatchReach env c items p0 (initRun c items p0)
  | step (s t : RunState) (hr : BatchReach env c items p0 s)
      (hs : BatchStep env s t) : BatchReach env c items p0 t

/-- Weight 1 for a worker holding an item it has not yet counted. -/
def phaseWeight : WorkerPhase → Nat
  | WorkerPhase.looping => 0
  | WorkerPhase.claimed _ => 1
  | WorkerPhase.working _ => 1
  | WorkerPhase.recording _ => 1
  | WorkerPhase.exited => 0

/-- Number of items currently held by workers and not yet counted. -/
def busyCount (s : RunState) : Nat := (s.workers.map phaseWeight).sum

lemma sum_map_set (l : List WorkerPhase) (n : Nat) (v ph : WorkerPhase)
    (h : l.get? n = some ph) :
    ((l.set n v).map phaseWeight).sum + phaseWeight ph
      = (l.map phaseWeight).sum + phaseWeight v := by
  induction l generalizing n with
  | nil => simp at h
  | cons x xs ih =>
    cases n with
    | zero =>
      simp only [List.get?] at h
      injection h with h
      subst h
      simp [List.set]
      omega
    | succ m =>
      simp only [List.get?] at h
      have hx := ih m h
      show ((x :: xs.set m v).map phaseWeight).sum + phaseWeight ph = _
      simp only [List.map_cons, List.sum_cons]
      omega

lemma get?_set_self (l : List WorkerPhase) (n : Nat) (v ph : WorkerPhase)
    (h : l.get? n = some ph) : (l.set n v).get? n = some v := by
  induction l generalizing n with
  | nil => simp at h
  | cons x xs ih =>
    cases n with
    | zero => rfl
    | succ m =>
      simp only [List.get?] at h
      simpa [List.set] using ih m h

lemma mem_of_mem_set (l : List WorkerPhase) (n : Nat) (v a : WorkerPhase)
    (h : a ∈ l.set n v) : a ∈ l ∨ a = v := by
  induction l generalizing n with
  | nil => simp [List.set] at h
  | cons x xs ih =>
    cases n with
    | zero =>
      simp only [List.set] at h
      rcases List.mem_cons.mp h with h | h
      · exact Or.inr h
      · exact Or.inl (List.mem_cons_of_mem x h)
    | succ m =>
      simp only [List.set] at h
      rcases List.mem_cons.mp h with h | h
      · exact Or.inl (h ▸ List.mem_cons_self x xs)
      · rcases ih m h with h2 | h2
        · exact Or.inl (List.mem_cons_of_mem x h2)
        · exact Or.inr h2

lemma sum_map_exited (l : List WorkerPhase)
    (h : ∀ ph ∈ l, ph = WorkerPhase.exited) : (l.map phaseWeight).sum = 0 := by
  induction l with
  | nil => rfl
  | cons x xs ih =>
    have hx := h x (List.mem_cons_self x xs)
    subst hx
    have hxs := ih (fun ph hm => h ph (List.mem_cons_of_mem _ hm))
    simp [phaseWeight, hxs]

/-- Inductive invariant of the batch run semantics. -/
structure BatchInv (c : Nat) (s : RunState) : Prop where
  wlen : s.workers.length = c
  counts : s.bulk.completed = s.bulk.success + s.bulk.failed
  conserve : s.bulk.completed + busyCount s + s.queue.length = s.bulk.total
  compEq : s.aborted = false → s.bulk.isComplete = s.schedDone
  schedExited : s.schedDone = true → ∀ ph ∈ s.workers, ph = WorkerPhase.exited
  exitedQueue : s.aborted = false → WorkerPhase.exited ∈ s.workers → s.queue = []

lemma batchInv_init (c : Nat) (items : List PairInfo) (p0 : String → PairState) :
    BatchInv c (initRun c items p0) := by
  constructor
  · simp [initRun]
  · rfl
  · simp [initRun, busyCount, List.map_replicate, phaseWeight]
  · intro _
    rfl
  · intro h
    simp [initRun] at h
  · intro _ h
    have := List.eq_of_mem_replicate h
    simp at this

lemma batchInv_step (c : Nat) (env : PairInfo → Except String ScreenshotReport)
    (s t : RunState) (inv : BatchInv c s) (hs : BatchStep env s t) : BatchInv c t := by
  cases hs with
  | dequeue w i q hw hab hq =>
    have hsum := sum_map_set s.workers w (WorkerPhase.claimed i) _ hw
    have hmemw := List.get?_mem hw
    constructor
    · simpa [dequeueStep] using inv.wlen
    · exact inv.counts
    · have hc := inv.conserve
      rw [hq] at hc
      simp only [dequeueStep, busyCount, List.length_cons] at hc ⊢
      simp only [phaseWeight] at hsum
      omega
    · intro h
      exact inv.compEq h
    · intro h
      have hall := inv.schedExited h
      have := hall _ hmemw
      simp at this
    · intro h hmem
      rcases mem_of_mem_set _ _ _ _ hmem with h2 | h2
      · have := inv.exitedQueue h h2
        rw [hq] at this
        simp at this
      · simp at h2
  | enterAborted w i hw hab =>
    have hsum := sum_map_set s.workers w (WorkerPhase.recording false) _ hw
    have hmemw := List.get?_mem hw
    constructor
    · simpa [enterAbortedStep] using inv.wlen
    · exact inv.counts
    · have hc := inv.conserve
      simp only [enterAbortedStep, busyCount] at hc ⊢
      simp only [phaseWeight] at hsum
      omega
    · intro h
      exact inv.compEq h
    · intro h
      have := inv.schedExited h _ hmemw
      simp at this
    · intro h hmem
      have h2 : s.aborted = false := h
      rw [hab] at h2
      simp at h2
  | enter w i hw hab =>
    have hsum := sum_map_set s.workers w (WorkerPhase.working i) _ hw
    have hmemw := List.get?_mem hw
    constructor
    · simpa [enterStep] using inv.wlen
    · exact inv.counts
    · have hc := inv.conserve
      simp only [enterStep, busyCount] at hc ⊢
      simp only [phaseWeight] at hsum
      omega
    · intro h
      exact inv.compEq h
    · intro h
      have := inv.schedExited h _ hmemw
      simp at this
    · intro h hmem
      rcases mem_of_mem_set _ _ _ _ hmem with h2 | h2
      · exact inv.exitedQueue h h2
      · simp at h2
  | finishOk w i rep hw henv =>
    have hsum := sum_map_set s.workers w (WorkerPhase.recording true) _ hw
    have hmemw := List.get?_mem hw
    constructor
    · simpa [finishOkStep] using inv.wlen
    · exact inv.counts
    · have hc := inv.conserve
      simp only [finishOkStep, busyCount] at hc ⊢
      simp only [phaseWeight] at hsum
      omega
    · intro h
      exact inv.compEq h
    · intro h
      have := inv.schedExited h _ hmemw
      simp at this
    · intro h hmem
      rcases mem_of_mem_set _ _ _ _ hmem with h2 | h2
      · exact inv.exitedQueue h h2
      · simp at h2
  | finishFail w i msg hw henv =>
    have hsum := sum_map_set s.workers w (WorkerPhase.recording false) _ hw
    have hmemw := List.get?_mem hw
    constructor
    · simpa [finishFailStep] using inv.wlen
    · exact inv.counts
    · have hc := inv.conserve
      simp only [finishFailStep, busyCount] at hc ⊢
      simp only [phaseWeight] at hsum
      omega
    · intro h
      exact inv.compEq h
    · intro h
      have := inv.schedExited h _ hmemw
      simp at this
    · intro h hmem
      rcases mem_of_mem_set _ _ _ _ hmem with h2 | h2
      · exact inv.exitedQueue h h2
      · simp at h2
  | finishFailEarly w i msg hw hab =>
    have hsum := sum_map_set s.workers w (WorkerPhase.recording false) _ hw
    have hmemw := List.get?_mem hw
    constructor
    · simpa [finishFailStep] using inv.wlen
    · exact inv.counts
    · have hc := inv.conserve
      simp only [finishFailStep, busyCount] at hc ⊢
      simp only [phaseWeight] at hsum
      omega
    · intro h
      exact inv.compEq h
    · intro h
      have := inv.schedExited h _ hmemw
      simp at this
    · intro h hmem
      have h2 : s.aborted = false := h
      rw [hab] at h2
      simp at h2
  | abandon w i hw hab =>
    have hsum := sum_map_set s.workers w (WorkerPhase.recording false) _ hw
    have hmemw := List.get?_mem hw
    constructor
    · simpa [abandonStep] using inv.wlen
    · exact inv.counts
    · have hc := inv.conserve
      simp only [abandonStep, busyCount] at hc ⊢
      simp only [phaseWeight] at hsum
      omega
    · intro h
      exact inv.compEq h
    · intro h
      have := inv.schedExited h _ hmemw
      simp at this
    · intro h hmem
      have h2 : s.aborted = false := h
      rw [hab] at h2
      simp at h2
  | record w b hw =>
    have hsum := sum_map_set s.workers w WorkerPhase.looping _ hw
    have hmemw := List.get?_mem hw
    constructor
    · simpa [recordStep] using inv.wlen
    · have := inv.counts
      simp only [recordStep]
      cases b <;> simp <;> omega
    · have hc := inv.conserve
      simp only [recordStep, busyCount] at hc ⊢
      simp only [phaseWeight] at hsum
      omega
    · intro h
      exact inv.compEq h
    · intro h
      have := inv.schedExited h _ hmemw
      simp at this
    · intro h hmem
      rcases mem_of_mem_set _ _ _ _ hmem with h2 | h2
      · exact inv.exitedQueue h h2
      · simp at h2
  | exit w hw hstop =>
    have hsum := sum_map_set s.workers w WorkerPhase.exited _ hw
    have hmemw := List.get?_mem hw
    constructor
    · simpa [exitStep] using inv.wlen
    · exact inv.counts
    · have hc := inv.conserve
      simp only [exitStep, busyCount] at hc ⊢
      simp only [phaseWeight] at hsum
      omega
    · intro h
      exact inv.compEq h
    · intro h
      have := inv.schedExited h _ hmemw
      simp at this
    · intro h hmem
      rcases hstop with h2 | h2
      · exact h2
      · have h3 : s.aborted = false := h
        rw [h2] at h3
        simp at h3
  | cancel =>
    constructor
    · exact inv.wlen
    · exact inv.counts
    · exact inv.conserve
    · intro h
      simp [cancelStep] at h
    · intro h
      exact inv.schedExited h
    · intro h hmem
      simp [cancelStep] at h
  | schedFinish hall hd =>
    constructor
    · exact inv.wlen
    · exact inv.counts
    · exact inv.conserve
    · intro _
      rfl
    · intro _
      exact hall
    · intro h hmem
      exact inv.exitedQueue h hmem

/-- Every reachable state of a batch run satisfies the invariant. -/
lemma batchInv_of_reach (env : PairInfo → Except String ScreenshotReport)
    (c : Nat) (items : List PairInfo) (p0 : String → PairState) (s : RunState)
    (h : BatchReach env c items p0 s) : BatchInv c s := by
  induction h with
  | init => exact batchInv_init c items p0
  | step s t hr hs ih => exact batchInv_step c env s t ih hs

/-- C2: in every batch run, at every observation point (in particular
after each item finishes) the run state satisfies
`completed = success + failed` and `completed ≤ total`, and in a run with
at least one worker that is never cancelled, `completed = total` once the
scheduler has completed the run. -/
theorem batch_progress_invariant (env : PairInfo → Except String ScreenshotReport)
    (c : Nat) (items : List PairInfo) (p0 : String → PairState) (s : RunState)
    (h : BatchReach env c items p0 s) (hc : 0 < c) :
    (s.bulk.completed = s.bulk.success + s.bulk.failed
      ∧ s.bulk.completed ≤ s.bulk.total)
    ∧ (s.aborted = false → s.schedDone = true → s.bulk.completed = s.bulk.total) := by
  have inv := batchInv_of_reach env c items p0 s h
  refine ⟨⟨inv.counts, ?_⟩, ?_⟩
  · have hcons := inv.conserve
    omega
  · intro hab hsd
    have hall := inv.schedExited hsd
    have hbusy : busyCount s = 0 := sum_map_exited s.workers hall
    have hex : WorkerPhase.exited ∈ s.workers := by
      have hlen := inv.wlen
      rcases hws : s.workers with _ | ⟨x, xs⟩
      · rw [hws] at hlen
        simp at hlen
        omega
      · have hx := hall x (by rw [hws]; exact List.mem_cons_self x xs)
        rw [← hx]
        exact List.mem_cons_self x xs
    have hq : s.queue = [] := inv.exitedQueue hab hex
    have hcons := inv.conserve
    rw [hq] at hcons
    simp at hcons
    omega

/-- Initial caller-owned item map: all items pending and untouched. -/
def pairsInit : String → PairState :=
  fun _ => { status := PairStatus.pending, report := none, errorMessage := none }

/-- Analysis environment in which every item succeeds with `reportA`. -/
def envOkA : PairInfo → Except String ScreenshotReport :=
  fun _ => Except.ok reportA

/-- Start state of the concrete one-item one-worker run. -/
def runT0 : RunState := initRun 1 [itemA] pairsInit

/-- The worker dequeues the only item. -/
def runT1 : RunState := dequeueStep runT0 0 itemA []

/-- The worker enters processItem. -/
def runT2 : RunState := enterStep runT1 0 itemA

/-- The retry ladder succeeds. -/
def runT3 : RunState := finishOkStep runT2 0 itemA reportA

/-- The worker records the result in the counters. -/
def runT4 : RunState := recordStep runT3 0 true

/-- The worker observes the empty queue and exits. -/
def runT5 : RunState := exitStep runT4 0

/-- The scheduler performs its completion step. -/
def runT6 : RunState := schedFinishStep runT5

lemma reach_runT6 : BatchReach envOkA 1 [itemA] pairsInit runT6 := by
  have h0 : BatchReach envOkA 1 [itemA] pairsInit runT0 := BatchReach.init
  have h1 := BatchReach.step runT0 runT1 h0
    (BatchStep.dequeue runT0 0 itemA [] rfl rfl rfl)
  have h2 := BatchReach.step runT1 runT2 h1
    (BatchStep.enter runT1 0 itemA rfl rfl)
  have h3 := BatchReach.step runT2 runT3 h2
    (BatchStep.finishOk runT2 0 itemA reportA rfl rfl)
  have h4 := BatchReach.step runT3 runT4 h3
    (BatchStep.record runT3 0 true rfl)
  have h5 := BatchReach.step runT4 runT5 h4
    (BatchStep.exit runT4 0 rfl (Or.inl rfl))
  exact BatchReach.step runT5 runT6 h5
    (BatchStep.schedFinish runT5 (by decide) rfl)

/-- Witness for C2 at the completed concrete run. -/
theorem batch_progress_invariant_witness :
    (runT6.bulk.completed = runT6.bulk.success + runT6.bulk.failed
      ∧ runT6.bulk.completed ≤ runT6.bulk.total)
    ∧ runT6.bulk.completed = runT6.bulk.total := by
  have h := batch_progress_invariant envOkA 1 [itemA] pairsInit runT6 reach_runT6
    (by decide)
  exact ⟨h.1, h.2 rfl rfl⟩

/-- State of the cancellation counterexample run: the worker has entered
processItem and the user then cancels. -/
def cexS3 : RunState := cancelStep (enterStep (dequeueStep runT0 0 itemA []) 0 itemA)

/-- C4 counterexample: `handleCancelBulk` sets `isComplete` to `true` in a
reachable state in which a worker task is still running (inside
`processItem` for the dequeued item) and the scheduler completion step has
not executed, so `isComplete` is not set only by the scheduler after all
workers have exited. -/
theorem isComplete_set_while_worker_running :
    BatchReach envOkA 1 [itemA] pairsInit cexS3
    ∧ cexS3.bulk.isComplete = true
    ∧ cexS3.workers.get? 0 = some (WorkerPhase.working itemA)
    ∧ cexS3.schedDone = false := by
  refine ⟨?_, rfl, rfl, rfl⟩
  have h0 : BatchReach envOkA 1 [itemA] pairsInit runT0 := BatchReach.init
  have h1 := BatchReach.step runT0 runT1 h0
    (BatchStep.dequeue runT0 0 itemA [] rfl rfl rfl)
  have h2 := BatchReach.step runT1 runT2 h1
    (BatchStep.enter runT1 0 itemA rfl rfl)
  exact BatchReach.step runT2 cexS3 h2 (BatchStep.cancel runT2)

/-- C4 amended: in a batch run that is never cancelled, `isComplete` is
true only after the scheduler completion step has executed, and then all
worker tasks have exited; on cancellation `handleCancelBulk` additionally
sets `isComplete` immediately, possibly while workers are still running. -/
theorem isComplete_by_scheduler_when_not_cancelled
    (env : PairInfo → Except String ScreenshotReport) (c : Nat)
    (items : List PairInfo) (p0 : String → PairState) (s : RunState)
    (h : BatchReach env c items p0 s) (hab : s.aborted = false)
    (hcomp : s.bulk.isComplete = true) :
    s.schedDone = true ∧ ∀ ph ∈ s.workers, ph = WorkerPhase.exited := by
  have inv := batchInv_of_reach env c items p0 s h
  have hsd : s.schedDone = true := by
    rw [← inv.compEq hab]
    exact hcomp
  exact ⟨hsd, inv.schedExited hsd⟩

/-- Witness for the amended C4 theorem at the completed concrete run. -/
theorem isComplete_by_scheduler_witness :
    runT6.schedDone = true ∧ ∀ ph ∈ runT6.workers, ph = WorkerPhase.exited :=
  isComplete_by_scheduler_when_not_cancelled envOkA 1 [itemA] pairsInit runT6
    reach_runT6 rfl rfl

/-- C10: when the cancellation signal is already set as a worker begins
processing a dequeued item, the semantics forces the aborted-entry return
of `processItem` followed by the counter update, and across those two
steps `completed` and `failed` are incremented while `success`, the error
log, and every item state are left unchanged. -/
theorem aborted_entry_counts_item_without_logging
    (env : PairInfo → Except String ScreenshotReport) (s : RunState)
    (w : Nat) (i : PairInfo)
    (hw : s.workers.get? w = some (WorkerPhase.claimed i))
    (hab : s.aborted = true) :
    BatchStep env s (enterAbortedStep s w)
    ∧ BatchStep env (enterAbortedStep s w)
        (recordStep (enterAbortedStep s w) w false)
    ∧ (recordStep (enterAbortedStep s w) w false).bulk.completed
        = s.bulk.completed + 1
    ∧ (recordStep (enterAbortedStep s w) w false).bulk.failed
        = s.bulk.failed + 1
    ∧ (recordStep (enterAbortedStep s w) w false).bulk.success
        = s.bulk.success
    ∧ (recordStep (enterAbortedStep s w) w false).bulk.errors = s.bulk.errors
    ∧ (recordStep (enterAbortedStep s w) w false).pairs = s.pairs := by
  refine ⟨BatchStep.enterAborted s w i hw hab, ?_, rfl, rfl, rfl, rfl, rfl⟩
  exact BatchStep.record (enterAbortedStep s w) w false
    (get?_set_self s.workers w (WorkerPhase.recording false) _ hw)

/-- Reachable state in which the worker has dequeued the item and the user
has already cancelled. -/
def cexV2 : RunState := cancelStep (dequeueStep runT0 0 itemA [])

/-- Witness for C10 at the concrete state where the only worker holds the
dequeued item and the cancellation signal is set. -/
theorem aborted_entry_counts_item_witness :
    BatchStep envOkA cexV2 (enterAbortedStep cexV2 0)
    ∧ BatchStep envOkA (enterAbortedStep cexV2 0)
        (recordStep (enterAbortedStep cexV2 0) 0 false)
    ∧ (recordStep (enterAbortedStep cexV2 0) 0 false).bulk.completed
        = cexV2.bulk.completed + 1
    ∧ (recordStep (enterAbortedStep cexV2 0) 0 false).bulk.failed
        = cexV2.bulk.failed + 1
    ∧ (recordStep (enterAbortedStep cexV2 0) 0 false).bulk.success
        = cexV2.bulk.success
    ∧ (recordStep (enterAbortedStep cexV2 0) 0 false).bulk.errors = cexV2.bulk.errors
    ∧ (recordStep (enterAbortedStep cexV2 0) 0 false).pairs = cexV2.pairs :=
  aborted_entry_counts_item_without_logging envOkA cexV2 0 itemA rfl rfl
